import Mathlib

/-!
# KubeSim cluster-state engine: a shallow embedding

This file embeds the cluster-state engine of the KubeSim repository
(`api-server/src/nodeManager.js`, `api-server/src/models.js`,
`api-server/src/podScheduler.js`, `api-server/src/healthMonitor.js`) in Lean 4
and proves properties of its registry, scheduler, health monitor and
failure-recovery operations.

Modelling conventions:
* JavaScript `Map`s are insertion-ordered association lists.  `Map.set` on an
  existing key updates the entry in place, keeping its position; on a new key
  it appends.  Every `set` site in the source uses the stored object's own id
  as the key, so `nodes` and `pods` are lists of `Node`/`Pod` keyed by their
  `id` field.
* JavaScript `Set`s (a node's `pods` member) are insertion-ordered duplicate
  free lists: `add` of a present element is a no-op, `add` of a fresh element
  appends, `delete` removes the element.
* `new Date()` values are an abstract millisecond clock, passed to every
  operation that reads the clock as an explicit `now : Int` argument.
* Machine numbers (`cpuCores`, `availableCores`, `cpuRequired`, timestamps)
  are JS doubles used only via `+`/`-`/comparison at integral values in the
  source, embedded as `Int`.
* Functions that can throw are embedded with an `Except String` component;
  state mutations performed before the throw survive in the returned state,
  matching JavaScript's in-place mutation of the registry object.
-/

/-- A worker node, as built by `new Node(id, cpuCores)` (models.js:2-11):
`availableCores` starts at `cpuCores`, `lastHeartbeat` at the current time,
`status` at `"healthy"`, and `pods` empty. -/
structure Node where
  id : String
  cpuCores : Int
  availableCores : Int
  lastHeartbeat : Int
  status : String
  pods : List String
deriving Repr, DecidableEq

/-- A pod, as built inline by `NodeManager.addPod` (nodeManager.js:106-113).
The dynamically-added `lastUpdated` field (set only by `recordHeartbeat`) is
read by nothing in the source and is not modelled. -/
structure Pod where
  id : String
  nodeId : String
  cpuRequired : Int
  memoryRequired : Int
  status : String
  createdAt : Int
deriving Repr, DecidableEq

/-- A recovery-log entry, as built by `NodeManager.simulateNodeFailure`
(nodeManager.js:215-221): `toNode` is `null` until a relocation target is
found, `status` is one of `"PENDING"`, `"COMPLETED"`, `"FAILED"`. -/
structure RecoveryOp where
  podId : String
  fromNode : String
  toNode : Option String
  status : String
  timestamp : Int
deriving Repr, DecidableEq

/-- The registry state owned by `NodeManager` (nodeManager.js:4-8):
`nodes` and `pods` are `Map`s keyed by id; `recoveryOperations` is a `Map`
keyed by pod id (written only by `simulateNodeFailure` via `set`). -/
structure NodeManager where
  nodes : List Node
  pods : List Pod
  recoveryOperations : List (String × RecoveryOp)
deriving Repr, DecidableEq

/-- `new NodeManager()`: all three maps empty. -/
def NodeManager.empty : NodeManager :=
  { nodes := [], pods := [], recoveryOperations := [] }

namespace NodeManager

/-- `this.nodes.get(nodeId)`. -/
def findNode (m : NodeManager) (nodeId : String) : Option Node :=
  m.nodes.find? (fun n => n.id == nodeId)

/-- `this.pods.get(podId)`. -/
def findPod (m : NodeManager) (podId : String) : Option Pod :=
  m.pods.find? (fun p => p.id == podId)

/-- `this.nodes.set(node.id, node)`: update in place if the key exists,
append otherwise. -/
def setNode (nodes : List Node) (node : Node) : List Node :=
  if nodes.any (fun n => n.id == node.id) then
    nodes.map (fun n => if n.id == node.id then node else n)
  else nodes ++ [node]

/-- In-place mutation of the node object stored under `nodeId` (the JS code
mutates fields of the object held in the map). Every use passes an
`f` that preserves `id`. -/
def modifyNode (nodes : List Node) (nodeId : String) (f : Node → Node) : List Node :=
  nodes.map (fun n => if n.id == nodeId then f n else n)

/-- `this.pods.set(pod.id, pod)`. -/
def setPod (pods : List Pod) (pod : Pod) : List Pod :=
  if pods.any (fun p => p.id == pod.id) then
    pods.map (fun p => if p.id == pod.id then pod else p)
  else pods ++ [pod]

/-- In-place mutation of the pod object stored under `podId`. -/
def modifyPod (pods : List Pod) (podId : String) (f : Pod → Pod) : List Pod :=
  pods.map (fun p => if p.id == podId then f p else p)

/-- `this.pods.delete(podId)`. -/
def deletePod (pods : List Pod) (podId : String) : List Pod :=
  pods.filter (fun p => p.id != podId)

/-- `Set.add`: no-op on a present element, append otherwise. -/
def setAdd (s : List String) (x : String) : List String :=
  if x ∈ s then s else s ++ [x]

/-- `Set.delete`. -/
def setDelete (s : List String) (x : String) : List String :=
  s.filter (fun y => y != x)

/-- `NodeManager.addNode` (nodeManager.js:11-15): constructs
`new Node(nodeId, cpuCores)` and stores it under `nodeId`.  There is no
duplicate-id or capacity validation: an existing entry is overwritten and any
`cpuCores` value is accepted. -/
def addNode (m : NodeManager) (nodeId : String) (cpuCores : Int) (now : Int) :
    NodeManager × Node :=
  let node : Node :=
    { id := nodeId, cpuCores := cpuCores, availableCores := cpuCores,
      lastHeartbeat := now, status := "healthy", pods := [] }
  ({ m with nodes := setNode m.nodes node }, node)

/-- `NodeManager.recordHeartbeat` (nodeManager.js:33-53).  Returns `false` if
the node is unknown; otherwise refreshes `lastHeartbeat`, forces
`status = 'healthy'`, and for each `(podId, status)` entry updates the pod if
`this.pods.get(podId)` exists — with no check that the pod belongs to the
heartbeating node.  The optional `metrics` argument only stores an otherwise
unread `node.metrics` field and is not modelled; the per-pod `lastUpdated`
timestamp is likewise unread and not modelled. -/
def recordHeartbeat (m : NodeManager) (nodeId : String)
    (podStatuses : List (String × String)) (now : Int) : NodeManager × Bool :=
  match m.findNode nodeId with
  | none => (m, false)
  | some _ =>
    let ns := modifyNode m.nodes nodeId
      (fun n => { n with lastHeartbeat := now, status := "healthy" })
    let m1 := { m with nodes := ns }
    let m2 := podStatuses.foldl (fun acc ps =>
        { acc with pods := modifyPod acc.pods ps.1 (fun p => { p with status := ps.2 }) }) m1
    (m2, true)

/-- `NodeManager.checkNodeHealth` (nodeManager.js:55-62): every node that is
not `'failed'` and whose heartbeat is more than 90000 ms old is set to
`'unhealthy'`.  (This method is dead code in the running server; the active
sweep is `HealthMonitor.checkNodeHealth` below.) -/
def checkNodeHealth (m : NodeManager) (now : Int) : NodeManager :=
  { m with nodes := m.nodes.map (fun n =>
      if n.status != "failed" && decide (now - n.lastHeartbeat > 90000)
      then { n with status := "unhealthy" } else n) }

/-- `NodeManager.recordRecoveryOperation` (nodeManager.js:83-91) executes
`this.recoveryOperations.push({...})` — but `recoveryOperations` is
initialized as `new Map()` (nodeManager.js:7) and `Map.prototype.push` is
`undefined`, so the call throws a `TypeError` before touching any state. -/
def recordRecoveryOperation (m : NodeManager) (_podId _fromNodeId : String)
    (_toNodeId : Option String) (_status : String) (_now : Int) :
    NodeManager × Except String Unit :=
  (m, .error "TypeError: this.recoveryOperations.push is not a function")

/-- `NodeManager.getRecoveryStatus` (nodeManager.js:93-99): filter of the
recorded operations to those with status `'PENDING'`, or `'COMPLETED'` with a
timestamp less than 300000 ms old. -/
def getRecoveryStatus (m : NodeManager) (now : Int) : List RecoveryOp :=
  (m.recoveryOperations.map (fun e => e.2)).filter (fun op =>
    op.status == "PENDING" ||
      (op.status == "COMPLETED" && decide (now - op.timestamp < 300000)))

/-- `NodeManager.addPod` (nodeManager.js:102-133).  Returns `false` when the
node is missing or `availableCores < cpuRequired`; there is no check of the
node's `status` and no positivity check on `cpuRequired`.  On success the pod
is stored with status `'pending'`, the node is debited and the pod id added to
its set.  The trailing `setTimeout` only schedules an asynchronous status flip
to `'running'` 5 s later; the synchronous operation modelled here ends at
`return pod`.  (The `if (!node.pods) node.pods = new Set()` guard is a no-op:
the constructor always creates the set.) -/
def addPod (m : NodeManager) (nodeId podId : String)
    (cpuRequired memoryRequired : Int) (now : Int) : NodeManager × Option Pod :=
  match m.findNode nodeId with
  | none => (m, none)
  | some node =>
    if node.availableCores < cpuRequired then (m, none)
    else
      let pod : Pod :=
        { id := podId, nodeId := nodeId, cpuRequired := cpuRequired,
          memoryRequired := memoryRequired, status := "pending", createdAt := now }
      let m1 := { m with pods := setPod m.pods pod }
      let m2 := { m1 with nodes := modifyNode m1.nodes nodeId (fun n =>
          { n with availableCores := n.availableCores - cpuRequired,
                   pods := setAdd n.pods podId }) }
      (m2, some pod)

/-- The view of a pod built by `NodeManager.getPodsOnNode` (nodeManager.js:139-148). -/
structure PodView where
  id : String
  nodeId : String
  cpuRequired : Int
  status : String
  createdAt : Int
deriving Repr, DecidableEq

/-- `NodeManager.getPodsOnNode` (nodeManager.js:135-149): maps the node's pod
ids through the pod map.  In JavaScript a pod id present in `node.pods` but
absent from `this.pods` would throw (`pod.nodeId` on `undefined`); the states
quantified over by the theorems below satisfy the well-formedness predicate
`Wf`, under which that branch is unreachable; it returns a sentinel view. -/
def getPodsOnNode (m : NodeManager) (nodeId : String) : List PodView :=
  match m.findNode nodeId with
  | none => []
  | some node =>
    node.pods.map (fun pid =>
      match m.findPod pid with
      | some p => { id := pid, nodeId := p.nodeId, cpuRequired := p.cpuRequired,
                    status := p.status, createdAt := p.createdAt }
      | none => { id := pid, nodeId := "", cpuRequired := 0, status := "", createdAt := 0 })

/-- `NodeManager.movePod` (nodeManager.js:162-181).  All guards (`pod` exists,
`pod.nodeId == fromNodeId`, both nodes exist, target capacity) are evaluated
before any mutation; on success the source is credited, the target debited,
the pod id moved between the two pod sets and the pod reassigned and set
`'running'`.  The four node mutations are applied in source order, which makes
the `fromNodeId = toNodeId` aliasing case behave exactly as the JS object
mutation does. -/
def movePod (m : NodeManager) (podId fromNodeId toNodeId : String) :
    NodeManager × Bool :=
  match m.findPod podId with
  | none => (m, false)
  | some pod =>
    if pod.nodeId ≠ fromNodeId then (m, false)
    else
      match m.findNode fromNodeId, m.findNode toNodeId with
      | some _, some toNode =>
        if toNode.availableCores < pod.cpuRequired then (m, false)
        else
          let c := pod.cpuRequired
          let n1 := modifyNode m.nodes fromNodeId (fun n =>
            { n with availableCores := n.availableCores + c })
          let n2 := modifyNode n1 toNodeId (fun n =>
            { n with availableCores := n.availableCores - c })
          let n3 := modifyNode n2 fromNodeId (fun n =>
            { n with pods := setDelete n.pods podId })
          let n4 := modifyNode n3 toNodeId (fun n =>
            { n with pods := setAdd n.pods podId })
          let ps := modifyPod m.pods podId (fun p =>
            { p with nodeId := toNodeId, status := "running" })
          ({ m with nodes := n4, pods := ps }, true)
      | _, _ => (m, false)

/-- `NodeManager.removePod` (nodeManager.js:183-194): credits the owning node
(if it still exists) and deletes the pod. -/
def removePod (m : NodeManager) (podId : String) : NodeManager × Bool :=
  match m.findPod podId with
  | none => (m, false)
  | some pod =>
    let nodes' := modifyNode m.nodes pod.nodeId (fun n =>
      { n with availableCores := n.availableCores + pod.cpuRequired,
               pods := setDelete n.pods podId })
    ({ m with nodes := nodes', pods := deletePod m.pods podId }, true)

/-- `NodeManager.findAvailableNodeForPod` (nodeManager.js:197-204): first node
in insertion order with `status === 'healthy'` and enough available cores. -/
def findAvailableNodeForPod (m : NodeManager) (cpuRequired : Int) : Option String :=
  (m.nodes.find? (fun n =>
      n.status == "healthy" && decide (n.availableCores ≥ cpuRequired))).map (fun n => n.id)

/-- `NodeManager.getAvailableNodes` (nodeManager.js:243-249): the healthy
nodes with strictly positive available capacity, in insertion order. -/
def getAvailableNodes (m : NodeManager) : List Node :=
  m.nodes.filter (fun n => n.status == "healthy" && decide (n.availableCores > 0))

/-- `NodeManager.getSystemStatus` (nodeManager.js:251-259) reads the free
identifiers `nodes`, `pods` and `totalCores`, none of which is in scope
(they were meant to be derived from `this`); its first statement throws
`ReferenceError`.  The success value (healthy-node count, available cores) is
never produced. -/
def getSystemStatus (_m : NodeManager) : Except String (Int × Int) :=
  .error "ReferenceError: nodes is not defined"

/-- `NodeManager.handleNodeFailure` (nodeManager.js:65-81): marks the node
`'failed'`, then for each pod on it tries a relocation target and records a
recovery operation.  Every iteration calls `recordRecoveryOperation`, which
throws (see above); the exception aborts the `forEach`, so with at least one
pod the whole call throws after at most one successful move. -/
def handleNodeFailure (m : NodeManager) (nodeId : String) (now : Int) :
    NodeManager × Except String Unit :=
  match m.findNode nodeId with
  | none => (m, .ok ())
  | some _ =>
    let ns := modifyNode m.nodes nodeId (fun n => { n with status := "failed" })
    let m1 := { m with nodes := ns }
    let pods := m1.getPodsOnNode nodeId
    pods.foldl (fun acc pv =>
      match acc.2 with
      | .error e => (acc.1, .error e)
      | .ok _ =>
        match acc.1.findAvailableNodeForPod pv.cpuRequired with
        | some newNodeId =>
          let m2 := (movePod acc.1 pv.id nodeId newNodeId).1
          recordRecoveryOperation m2 pv.id nodeId (some newNodeId) "COMPLETED" now
        | none =>
          recordRecoveryOperation acc.1 pv.id nodeId none "FAILED" now)
      (m1, .ok ())

/-- `this.recoveryOperations.set(podId, op)` (nodeManager.js:232). -/
def setRecoveryOp (ops : List (String × RecoveryOp)) (podId : String)
    (op : RecoveryOp) : List (String × RecoveryOp) :=
  if ops.any (fun e => e.1 == podId) then
    ops.map (fun e => if e.1 == podId then (podId, op) else e)
  else ops ++ [(podId, op)]

/-- The success value of `NodeManager.simulateNodeFailure` (nodeManager.js:235-240). -/
structure SimFailureResult where
  nodeId : String
  status : String
  recoveryOperations : List RecoveryOp
  systemStatus : Int × Int
deriving Repr, DecidableEq

/-- `NodeManager.simulateNodeFailure` (nodeManager.js:206-241): returns `null`
for an unknown node; otherwise marks the node `'failed'`, snapshots its pods,
and for each pod builds an operation with status `'PENDING'`, upgrades it to
`'COMPLETED'` if a relocation target is found and the move made, and stores it
under the pod id.  A pod with no target keeps the `'PENDING'` operation — the
status is never set to `'FAILED'` on this path.  The final
`this.getSystemStatus()` call throws `ReferenceError` (see `getSystemStatus`),
so for an existing node the mutations survive but the call always throws
instead of returning its result object. -/
def simulateNodeFailure (m : NodeManager) (nodeId : String) (now : Int) :
    NodeManager × Except String (Option SimFailureResult) :=
  match m.findNode nodeId with
  | none => (m, .ok none)
  | some _ =>
    let ns := modifyNode m.nodes nodeId (fun n => { n with status := "failed" })
    let m1 := { m with nodes := ns }
    let pods := m1.getPodsOnNode nodeId
    let step := fun (acc : NodeManager × List RecoveryOp) (pv : PodView) =>
      let op0 : RecoveryOp :=
        { podId := pv.id, fromNode := nodeId, toNode := none,
          status := "PENDING", timestamp := now }
      let next :=
        match acc.1.findAvailableNodeForPod pv.cpuRequired with
        | some newNodeId =>
          ((movePod acc.1 pv.id nodeId newNodeId).1,
            { op0 with toNode := some newNodeId, status := "COMPLETED" })
        | none => (acc.1, op0)
      ({ next.1 with recoveryOperations :=
            setRecoveryOp next.1.recoveryOperations pv.id next.2 },
        acc.2 ++ [next.2])
    let res := pods.foldl step (m1, [])
    match getSystemStatus res.1 with
    | .error e => (res.1, .error e)
    | .ok s => (res.1, .ok (some
        { nodeId := nodeId, status := "failed",
          recoveryOperations := res.2, systemStatus := s }))

end NodeManager

namespace PodScheduler

/-- `PodScheduler.schedulePod` (podScheduler.js:7-16): first-fit over
`getAvailableNodes()` — a pure read of the registry returning only the chosen
node id. -/
def schedulePod (m : NodeManager) (cpuRequired : Int) : Option String :=
  ((m.getAvailableNodes).find? (fun n =>
      decide (n.availableCores ≥ cpuRequired))).map (fun n => n.id)

end PodScheduler

namespace HealthMonitor

/-- `HealthMonitor.handleNodeFailure` (healthMonitor.js:59-72): for each pod
on the node, in order, ask the scheduler for a target and move the pod there
if one exists.  No recovery operation is recorded and nothing throws. -/
def handleNodeFailure (m : NodeManager) (nodeId : String) : NodeManager :=
  (m.getPodsOnNode nodeId).foldl (fun acc pv =>
    match PodScheduler.schedulePod acc pv.cpuRequired with
    | some newNodeId => (acc.movePod pv.id nodeId newNodeId).1
    | none => acc) m

/-- The staleness trigger of `HealthMonitor.checkNodeHealth`
(healthMonitor.js:38): heartbeat older than 90000 ms and status not already
`'unhealthy'`.  Note the only status excluded is `'unhealthy'`. -/
def staleTrigger (now : Int) (n : Node) : Bool :=
  decide (n.lastHeartbeat < now - 90000) && n.status != "unhealthy"

/-- One iteration of the sweep's `forEach` callback (healthMonitor.js:37-43),
applied to the live registry: if the node's current state satisfies
`staleTrigger`, set it `'unhealthy'` and run `handleNodeFailure` for it,
recording the node id. -/
def tickStep (now : Int) (acc : NodeManager × List String) (nid : String) :
    NodeManager × List String :=
  match acc.1.findNode nid with
  | none => acc
  | some node =>
    if staleTrigger now node then
      let ns := NodeManager.modifyNode acc.1.nodes nid
        (fun n => { n with status := "unhealthy" })
      let m1 := { acc.1 with nodes := ns }
      (handleNodeFailure m1 nid, acc.2 ++ [nid])
    else acc

/-- `HealthMonitor.checkNodeHealth` (healthMonitor.js:33-44): the periodic
sweep.  It iterates the node map; each node whose live state satisfies
`staleTrigger` is set `'unhealthy'` and `handleNodeFailure` is invoked for it.
The callback mutates only fields of existing entries, never adds or removes
map entries, so iterating the initial key list coincides with the JS `Map`
iteration.  The second component records, in iteration order, the node ids for
which the transition fired and `handleNodeFailure` ran. -/
def checkNodeHealth (m : NodeManager) (now : Int) : NodeManager × List String :=
  (m.nodes.map (fun n => n.id)).foldl (tickStep now) (m, [])

end HealthMonitor

/-! ## Association-list lemmas -/

section ListLemmas

variable {α : Type _}

theorem find?_append_of_none (p : α → Bool) (l₁ l₂ : List α)
    (h : l₁.find? p = none) : (l₁ ++ l₂).find? p = l₂.find? p := by
  induction l₁ with
  | nil => simp
  | cons a t ih =>
    rw [List.find?_cons] at h
    cases hp : p a with
    | false =>
      simp only [hp] at h
      simpa [List.find?_cons, hp] using ih h
    | true => simp [hp] at h

theorem find?_append_of_some (p : α → Bool) (l₁ l₂ : List α)
    (h : (l₁.find? p).isSome) : (l₁ ++ l₂).find? p = l₁.find? p := by
  induction l₁ with
  | nil => simp at h
  | cons a t ih =>
    cases hp : p a with
    | false =>
      rw [List.find?_cons, hp] at h
      simp only [List.cons_append, List.find?_cons, hp]
      exact ih h
    | true => simp [List.find?_cons, hp]

theorem find?_map_update (p : α → Bool) (x : α) (l : List α)
    (hp : p x = true) (h : l.any p = true) :
    (l.map (fun a => if p a then x else a)).find? p = some x := by
  induction l with
  | nil => simp at h
  | cons a t ih =>
    cases hpa : p a with
    | true => simp [List.find?_cons, hpa, hp]
    | false =>
      simp only [List.any_cons, hpa, Bool.false_or] at h
      have hhead : (if p a = true then x else a) = a := if_neg (by simp [hpa])
      rw [List.map_cons, hhead]
      simpa [List.find?_cons, hpa] using ih h

/-- `find?` through a `map` whose function never changes whether the
predicate holds. -/
theorem find?_map_of_pred_inv (p : α → Bool) (g : α → α) (l : List α)
    (hg : ∀ a, p (g a) = p a) :
    (l.map g).find? p = (l.find? p).map g := by
  induction l with
  | nil => simp
  | cons a t ih =>
    cases hpa : p a with
    | true => simp [List.find?_cons, hg, hpa]
    | false => simpa [List.find?_cons, hg, hpa] using ih

theorem find?_filter_of_imp (p q : α → Bool) (l : List α)
    (h : ∀ a, p a = true → q a = true) :
    (l.filter q).find? p = l.find? p := by
  induction l with
  | nil => simp
  | cons a t ih =>
    cases hpa : p a with
    | true =>
      have hqa := h a hpa
      simp [List.filter_cons, hqa, List.find?_cons, hpa]
    | false =>
      cases hqa : q a with
      | true => simpa [List.filter_cons, hqa, List.find?_cons, hpa] using ih
      | false => simpa [List.filter_cons, hqa, List.find?_cons, hpa] using ih

theorem find?_filter_eq_find?_and (p q : α → Bool) (l : List α) :
    (l.filter q).find? p = l.find? (fun a => q a && p a) := by
  induction l with
  | nil => simp
  | cons a t ih =>
    cases hqa : q a with
    | true =>
      cases hpa : p a with
      | true => simp [List.filter_cons, hqa, List.find?_cons, hpa]
      | false => simp [List.filter_cons, hqa, List.find?_cons, hpa, ih]
    | false => simp [List.filter_cons, hqa, List.find?_cons, ih]

theorem isSome_find?_of_mem (p : α → Bool) (l : List α) (a : α)
    (ha : a ∈ l) (hpa : p a = true) : (l.find? p).isSome := by
  induction l with
  | nil => simp at ha
  | cons b t ih =>
    cases hpb : p b with
    | true => simp [List.find?_cons, hpb]
    | false =>
      rcases List.mem_cons.mp ha with rfl | hat
      · simp [hpb] at hpa
      · simp only [List.find?_cons, hpb]
        exact ih hat

end ListLemmas

/-! ## Registry-level derived lemmas -/

theorem findNode_setNode (l : List Node) (node : Node) :
    (NodeManager.setNode l node).find? (fun n => n.id == node.id) = some node := by
  unfold NodeManager.setNode
  split
  · next h => exact find?_map_update _ node l (by simp) h
  · next h =>
    have hnone : l.find? (fun n => n.id == node.id) = none := by
      rw [List.find?_eq_none]
      intro x hx hpx
      exact h (List.any_eq_true.mpr ⟨x, hx, hpx⟩)
    rw [find?_append_of_none _ _ _ hnone]
    simp [List.find?_cons]

/-! ## Claim C9: node registration -/

/-- C9 (amended).  `RegisterNode` at the registry level performs no
validation: for every state and every input — a duplicate id and a
non-positive `cpuCores` included — `NodeManager.addNode` returns a freshly
constructed healthy node with `availableCores = cpuCores` and an empty pod
set, and installs it in the node map under that id, replacing whatever entry
was there.  (The HTTP layer separately rejects `cpu_cores ≤ 0` before calling
`addNode`, but the registry itself never fails.) -/
theorem addNode_never_fails_and_overwrites (m : NodeManager) (nodeId : String)
    (c now : Int) :
    (m.addNode nodeId c now).2 =
      { id := nodeId, cpuCores := c, availableCores := c, lastHeartbeat := now,
        status := "healthy", pods := [] } ∧
    (m.addNode nodeId c now).1.findNode nodeId =
      some { id := nodeId, cpuCores := c, availableCores := c, lastHeartbeat := now,
             status := "healthy", pods := [] } := by
  refine ⟨rfl, ?_⟩
  unfold NodeManager.addNode NodeManager.findNode
  show List.find? _ (NodeManager.setNode m.nodes _) = _
  exact findNode_setNode m.nodes
    { id := nodeId, cpuCores := c, availableCores := c, lastHeartbeat := now,
      status := "healthy", pods := [] }

/-- C9, counterexample to the claim as stated: registering the id `"a"` a
second time does not fail with `DuplicateNodeId` — it silently replaces the
existing node's state (4 cores become 2) — and `addNode` with
`totalCores = 0 ≤ 0` does not fail with `InvalidCapacity` but creates the
node. -/
theorem addNode_counterexample :
    (((NodeManager.empty.addNode "a" 4 0).1.addNode "a" 2 5).1.findNode "a" =
      some { id := "a", cpuCores := 2, availableCores := 2, lastHeartbeat := 5,
             status := "healthy", pods := [] }) ∧
    ((NodeManager.empty.addNode "b" 0 0).1.findNode "b" =
      some { id := "b", cpuCores := 0, availableCores := 0, lastHeartbeat := 0,
             status := "healthy", pods := [] }) := by
  constructor <;> rfl

/-! ## Claim C3: AddPod success condition -/

/-- C3 (amended).  `NodeManager.addPod` succeeds exactly when the node exists
and `cpuRequired ≤ availableCores`.  The node's `status` is not consulted, so
the operation can also succeed on `unhealthy`, `draining` or `failed` nodes,
and there are no distinct error codes: every failure is the single value
`false`. -/
theorem addPod_success_iff (m : NodeManager) (nodeId podId : String)
    (cpu mem now : Int) :
    (m.addPod nodeId podId cpu mem now).2.isSome = true ↔
      ∃ node, m.findNode nodeId = some node ∧ cpu ≤ node.availableCores := by
  unfold NodeManager.addPod
  cases h : m.findNode nodeId with
  | none => simp [h]
  | some node =>
    by_cases hc : node.availableCores < cpu
    · simp only [if_pos hc]
      constructor
      · intro hfalse
        simp at hfalse
      · rintro ⟨x, hx1, hx2⟩
        injection hx1 with hx1
        subst hx1
        omega
    · simp only [if_neg hc]
      constructor
      · intro _
        exact ⟨node, rfl, by omega⟩
      · intro _
        rfl

/-- Intermediate state for the C3 counterexample: one node `"a"` registered
at time 0 with 4 cores, then one sweep of the health monitor at time 100000
(heartbeat 100000 ms old > 90000 ms threshold) marks it `unhealthy`. -/
def mC3 : NodeManager :=
  (HealthMonitor.checkNodeHealth (NodeManager.empty.addNode "a" 4 0).1 100000).1

/-- C3, counterexample to the claim as stated: node `"a"` has status
`'unhealthy'`, yet `addPod` succeeds (the claim requires failure with
`NodeNotSchedulable` whenever the status is not `healthy`). -/
theorem addPod_ignores_status_counterexample :
    (mC3.findNode "a").map Node.status = some "unhealthy" ∧
    (mC3.addPod "a" "p" 2 0 0).2.isSome = true := by
  constructor <;> rfl

/-! ## Claim C8: first-fit scheduling -/

/-- The combined first-fit acceptance predicate: what a node must satisfy for
`schedulePod` to be able to return it. -/
def firstFitPred (cpu : Int) (n : Node) : Bool :=
  (n.status == "healthy" && decide (n.availableCores > 0)) &&
    decide (n.availableCores ≥ cpu)

/-- The C8 scenario: nodes registered in order A (2 cores) then B (4 cores),
both healthy and hosting nothing. -/
def schedAB : NodeManager :=
  ((NodeManager.empty.addNode "A" 2 0).1.addNode "B" 4 0).1

/-- C8.  `PodScheduler.schedulePod` is first-fit: it returns the first node in
insertion order that is healthy, has strictly positive available capacity and
enough of it; it returns `none` exactly when no node qualifies; and in the
concrete scenario A(2 cores), B(4 cores), a 3-core request selects B.  (The
scheduler is a pure read: by its type it returns only the chosen id and
cannot mutate the registry.) -/
theorem schedulePod_first_fit (m : NodeManager) (cpu : Int) :
    (PodScheduler.schedulePod m cpu =
      (m.nodes.find? (firstFitPred cpu)).map (fun n => n.id)) ∧
    (PodScheduler.schedulePod m cpu = none ↔
      ∀ n ∈ m.nodes,
        ¬(n.status = "healthy" ∧ 0 < n.availableCores ∧ cpu ≤ n.availableCores)) ∧
    PodScheduler.schedulePod schedAB 3 = some "B" := by
  have hfind : PodScheduler.schedulePod m cpu =
      (m.nodes.find? (firstFitPred cpu)).map (fun n => n.id) := by
    unfold PodScheduler.schedulePod NodeManager.getAvailableNodes firstFitPred
    rw [find?_filter_eq_find?_and]
  refine ⟨hfind, ?_, rfl⟩
  rw [hfind]
  rw [Option.map_eq_none', List.find?_eq_none]
  constructor
  · intro h n hn hcontra
    have := h n hn
    simp only [firstFitPred, Bool.and_eq_true, beq_iff_eq, decide_eq_true_eq] at this
    exact this ⟨⟨hcontra.1, hcontra.2.1⟩, hcontra.2.2⟩
  · intro h n hn
    have := h n hn
    simp only [firstFitPred, Bool.and_eq_true, beq_iff_eq, decide_eq_true_eq]
    intro hcontra
    exact this ⟨hcontra.1.1, hcontra.1.2, hcontra.2⟩

/-! ## Claim C10: recovery-status filter -/

/-- C10.  `getRecoveryStatus` returns exactly the recorded operations that
are `'PENDING'`, or `'COMPLETED'` with a timestamp strictly within the last
300000 ms of the query time; an operation whose status is `'FAILED'` is never
returned, in any state. -/
theorem getRecoveryStatus_spec (m : NodeManager) (now : Int) :
    (∀ op, op ∈ m.getRecoveryStatus now ↔
      ((∃ e ∈ m.recoveryOperations, e.2 = op) ∧
        (op.status = "PENDING" ∨
          (op.status = "COMPLETED" ∧ now - op.timestamp < 300000)))) ∧
    ∀ op ∈ m.getRecoveryStatus now, op.status ≠ "FAILED" := by
  have hmem : ∀ op, op ∈ m.getRecoveryStatus now ↔
      ((∃ e ∈ m.recoveryOperations, e.2 = op) ∧
        (op.status = "PENDING" ∨
          (op.status = "COMPLETED" ∧ now - op.timestamp < 300000))) := by
    intro op
    unfold NodeManager.getRecoveryStatus
    rw [List.mem_filter]
    simp only [List.mem_map, Bool.or_eq_true, Bool.and_eq_true, beq_iff_eq,
      decide_eq_true_eq]
  refine ⟨hmem, ?_⟩
  intro op hop hfail
  rcases ((hmem op).mp hop).2 with h | h
  · rw [hfail] at h; exact absurd h (by decide)
  · rw [hfail] at h; exact absurd h.1 (by decide)

/-- A pending, a completed and a failed operation for the C10 witness. -/
def opP : RecoveryOp :=
  { podId := "p1", fromNode := "n", toNode := none, status := "PENDING", timestamp := 0 }

/-- See `opP`. -/
def opC : RecoveryOp :=
  { podId := "p2", fromNode := "n", toNode := some "m", status := "COMPLETED", timestamp := 50 }

/-- See `opP`. -/
def opF : RecoveryOp :=
  { podId := "p3", fromNode := "n", toNode := none, status := "FAILED", timestamp := 90 }

/-- A concrete three-operation log for the C10 witness. -/
def mOps : NodeManager :=
  { nodes := [], pods := [],
    recoveryOperations := [("p1", opP), ("p2", opC), ("p3", opF)] }

/-- Witness for C10 at a concrete log: the pending operation is returned and
the failed one is not. -/
theorem getRecoveryStatus_spec_witness :
    opP ∈ mOps.getRecoveryStatus 100 ∧ opF ∉ mOps.getRecoveryStatus 100 := by
  constructor
  · exact ((getRecoveryStatus_spec mOps 100).1 opP).mpr
      ⟨⟨("p1", opP), by simp [mOps], rfl⟩, Or.inl rfl⟩
  · intro hmem
    exact (getRecoveryStatus_spec mOps 100).2 opF hmem rfl

/-! ## Claims C2 and C5: the throwing recovery path -/

/-- State for C2: node `"m1"` (4 cores) hosting pod `"q1"` (1 core). -/
def mC2 : NodeManager :=
  ((NodeManager.empty.addNode "m1" 4 0).1.addPod "m1" "q1" 1 0 0).1

/-- C2.  The failure-recovery path throws instead of returning a result:
with node `"m1"` hosting one pod, `handleNodeFailure` reaches
`recordRecoveryOperation`, whose `this.recoveryOperations.push(...)` throws a
`TypeError` (`recoveryOperations` is a `Map`, which has no `push`), and
`getSystemStatus` throws a `ReferenceError` on its out-of-scope identifiers in
every state.  This contradicts the claim that these operations complete with
explicit success-or-error results. -/
theorem recovery_path_throws :
    (mC2.getPodsOnNode "m1").length = 1 ∧
    (mC2.handleNodeFailure "m1" 0).2 =
      Except.error "TypeError: this.recoveryOperations.push is not a function" ∧
    NodeManager.getSystemStatus mC2 =
      Except.error "ReferenceError: nodes is not defined" := by
  refine ⟨rfl, rfl, rfl⟩

/-- State for C5: node `"n1"` (8 cores) hosting pod `"p1"` (5 cores); no
other node exists, so the pod cannot be placed anywhere after `"n1"` fails. -/
def mC5 : NodeManager :=
  ((NodeManager.empty.addNode "n1" 8 0).1.addPod "n1" "p1" 5 0 0).1

/-- C5.  `simulateNodeFailure` on a node hosting one unplaceable pod: the pod
stays assigned to `"n1"` with its own status untouched, but the recorded
recovery operation has status `'PENDING'` (never `'FAILED'`, contrary to the
claim), and the call throws `ReferenceError` out of its final
`getSystemStatus()` instead of returning — so an exception does propagate. -/
theorem simulateNodeFailure_unplaceable_pod :
    (mC5.simulateNodeFailure "n1" 42).2 =
      Except.error "ReferenceError: nodes is not defined" ∧
    (mC5.simulateNodeFailure "n1" 42).1.recoveryOperations =
      [("p1", { podId := "p1", fromNode := "n1", toNode := none,
                status := "PENDING", timestamp := 42 })] ∧
    ((mC5.simulateNodeFailure "n1" 42).1.findPod "p1").map Pod.nodeId = some "n1" ∧
    ((mC5.simulateNodeFailure "n1" 42).1.findPod "p1").map Pod.status = some "pending" ∧
    ((mC5.simulateNodeFailure "n1" 42).1.findNode "n1").map Node.status = some "failed" := by
  refine ⟨rfl, rfl, rfl, rfl, rfl⟩

/-! ## Claim C4: MovePod atomicity -/

theorem find?_node_id_eq {l : List Node} {x : String} {n : Node}
    (h : l.find? (fun n => n.id == x) = some n) : n.id = x := by
  have := List.find?_some h
  simpa using this

theorem find?_pod_id_eq {l : List Pod} {x : String} {p : Pod}
    (h : l.find? (fun p => p.id == x) = some p) : p.id = x := by
  have := List.find?_some h
  simpa using this

theorem findNode_modifyNode (l : List Node) (nid x : String) (f : Node → Node)
    (hf : ∀ n, (f n).id = n.id) :
    (NodeManager.modifyNode l nid f).find? (fun n => n.id == x) =
      (l.find? (fun n => n.id == x)).map
        (fun n => if n.id == nid then f n else n) := by
  apply find?_map_of_pred_inv
  intro a
  by_cases h : a.id == nid
  · simp [h, hf]
  · simp [h]

theorem findPod_modifyPod (l : List Pod) (pid x : String) (f : Pod → Pod)
    (hf : ∀ p, (f p).id = p.id) :
    (NodeManager.modifyPod l pid f).find? (fun p => p.id == x) =
      (l.find? (fun p => p.id == x)).map
        (fun p => if p.id == pid then f p else p) := by
  apply find?_map_of_pred_inv
  intro a
  by_cases h : a.id == pid
  · simp [h, hf]
  · simp [h]

/-- C4.  `movePod` is atomic: it returns `true` exactly when the pod exists,
sits on `fromNodeId`, both nodes exist and the target has capacity; whenever
it returns `false` the registry is completely unchanged; and on success (with
distinct nodes) the target is debited by the pod's `cpuRequired`, the source
credited by the same amount, the pod reassigned to the target with status
`'running'`, and every other node and pod left untouched. -/
theorem movePod_atomicity (m : NodeManager) (podId fromId toId : String) :
    ((m.movePod podId fromId toId).2 = true ↔
      ∃ pod toNode, m.findPod podId = some pod ∧ pod.nodeId = fromId ∧
        (m.findNode fromId).isSome = true ∧ m.findNode toId = some toNode ∧
        pod.cpuRequired ≤ toNode.availableCores) ∧
    ((m.movePod podId fromId toId).2 = false → (m.movePod podId fromId toId).1 = m) ∧
    (∀ pod toNode fromNode, m.findPod podId = some pod → pod.nodeId = fromId →
      m.findNode fromId = some fromNode → m.findNode toId = some toNode →
      pod.cpuRequired ≤ toNode.availableCores →
      ((m.movePod podId fromId toId).1.findPod podId =
          some { pod with nodeId := toId, status := "running" } ∧
        (fromId ≠ toId →
          ((m.movePod podId fromId toId).1.findNode toId).map Node.availableCores =
            some (toNode.availableCores - pod.cpuRequired) ∧
          ((m.movePod podId fromId toId).1.findNode fromId).map Node.availableCores =
            some (fromNode.availableCores + pod.cpuRequired)) ∧
        (∀ x, x ≠ fromId → x ≠ toId →
          (m.movePod podId fromId toId).1.findNode x = m.findNode x) ∧
        (∀ q, q ≠ podId →
          (m.movePod podId fromId toId).1.findPod q = m.findPod q))) := by
  unfold NodeManager.movePod
  cases hp : m.findPod podId with
  | none =>
    dsimp only
    refine ⟨by simp, fun _ => rfl, ?_⟩
    intro pod toNode fromNode hpod
    simp at hpod
  | some pod =>
    dsimp only
    by_cases hnid : pod.nodeId = fromId
    · rw [if_neg (not_not_intro hnid)]
      cases hf : m.findNode fromId with
      | none =>
        dsimp only
        refine ⟨by simp, fun _ => rfl, ?_⟩
        intro pod' toNode fromNode hpod' hnid' hfrom
        simp at hfrom
      | some fromNode =>
        cases ht : m.findNode toId with
        | none =>
          dsimp only
          refine ⟨by simp, fun _ => rfl, ?_⟩
          intro pod' toNode fromNode' hpod' hnid' hfrom hto
          simp at hto
        | some toNode =>
          dsimp only
          by_cases hcap : toNode.availableCores < pod.cpuRequired
          · rw [if_pos hcap]
            refine ⟨?_, fun _ => rfl, ?_⟩
            · constructor
              · intro hfalse
                exact absurd hfalse (by simp)
              · rintro ⟨pod', toNode', hpod', hnid', hsome, hto', hcap'⟩
                injection hpod' with e1
                subst e1
                injection hto' with e2
                subst e2
                exact absurd hcap' (not_le.mpr hcap)
            · rintro pod' toNode' fromNode' hpod' hnid' hfrom' hto' hcap'
              injection hpod' with e1
              subst e1
              injection hto' with e2
              subst e2
              exact absurd hcap' (not_le.mpr hcap)
          · rw [if_neg hcap]
            have hpodid : pod.id = podId := find?_pod_id_eq hp
            have hfid : fromNode.id = fromId := find?_node_id_eq hf
            have htid : toNode.id = toId := find?_node_id_eq ht
            refine ⟨?_, ?_, ?_⟩
            · simp only [true_iff]
              exact ⟨pod, toNode, rfl, hnid, rfl, rfl, by omega⟩
            · intro hcontra
              simp at hcontra
            · rintro pod' toNode' fromNode' hpod' hnid' hfrom' hto' hcap'
              injection hpod' with e1
              subst e1
              injection hfrom' with e2
              subst e2
              injection hto' with e3
              subst e3
              refine ⟨?_, ?_, ?_, ?_⟩
              · show NodeManager.findPod _ podId = _
                unfold NodeManager.findPod
                dsimp only
                rw [findPod_modifyPod _ _ _ (fun p => { p with nodeId := toId, status := "running" }) (fun p => rfl)]
                rw [show m.pods.find? (fun p => p.id == podId) = some pod from hp]
                simp [hpodid]
              · intro hft
                constructor
                · show (NodeManager.findNode _ toId).map _ = _
                  unfold NodeManager.findNode
                  dsimp only
                  rw [findNode_modifyNode _ _ _ (fun n => { n with pods := NodeManager.setAdd n.pods podId }) (fun n => rfl)]
                  rw [findNode_modifyNode _ _ _ (fun n => { n with pods := NodeManager.setDelete n.pods podId }) (fun n => rfl)]
                  rw [findNode_modifyNode _ _ _ (fun n => { n with availableCores := n.availableCores - pod.cpuRequired }) (fun n => rfl)]
                  rw [findNode_modifyNode _ _ _ (fun n => { n with availableCores := n.availableCores + pod.cpuRequired }) (fun n => rfl)]
                  rw [show m.nodes.find? (fun n => n.id == toId) = some toNode from ht]
                  have h1 : (toNode.id == fromId) = false := by
                    simp only [htid, beq_eq_false_iff_ne, ne_eq]
                    intro hcontra
                    exact hft hcontra.symm
                  simp [h1, htid, Ne.symm hft]
                · show (NodeManager.findNode _ fromId).map _ = _
                  unfold NodeManager.findNode
                  dsimp only
                  rw [findNode_modifyNode _ _ _ (fun n => { n with pods := NodeManager.setAdd n.pods podId }) (fun n => rfl)]
                  rw [findNode_modifyNode _ _ _ (fun n => { n with pods := NodeManager.setDelete n.pods podId }) (fun n => rfl)]
                  rw [findNode_modifyNode _ _ _ (fun n => { n with availableCores := n.availableCores - pod.cpuRequired }) (fun n => rfl)]
                  rw [findNode_modifyNode _ _ _ (fun n => { n with availableCores := n.availableCores + pod.cpuRequired }) (fun n => rfl)]
                  rw [show m.nodes.find? (fun n => n.id == fromId) = some fromNode from hf]
                  have h2 : (fromNode.id == toId) = false := by
                    simp only [hfid, beq_eq_false_iff_ne, ne_eq]
                    exact hft
                  simp [h2, hfid, hft]
              · intro x hxf hxt
                show NodeManager.findNode _ x = _
                unfold NodeManager.findNode
                dsimp only
                rw [findNode_modifyNode _ _ _ (fun n => { n with pods := NodeManager.setAdd n.pods podId }) (fun n => rfl)]
                rw [findNode_modifyNode _ _ _ (fun n => { n with pods := NodeManager.setDelete n.pods podId }) (fun n => rfl)]
                rw [findNode_modifyNode _ _ _ (fun n => { n with availableCores := n.availableCores - pod.cpuRequired }) (fun n => rfl)]
                rw [findNode_modifyNode _ _ _ (fun n => { n with availableCores := n.availableCores + pod.cpuRequired }) (fun n => rfl)]
                cases hx : m.nodes.find? (fun n => n.id == x) with
                | none => rfl
                | some nx =>
                  have hxid : nx.id = x := find?_node_id_eq hx
                  have hof : (nx.id == fromId) = false := by
                    simp only [hxid, beq_eq_false_iff_ne, ne_eq]
                    exact hxf
                  have hot : (nx.id == toId) = false := by
                    simp only [hxid, beq_eq_false_iff_ne, ne_eq]
                    exact hxt
                  simp [hof, hot, hxid, hxf, hxt]
              · intro q hq
                show NodeManager.findPod _ q = _
                unfold NodeManager.findPod
                dsimp only
                rw [findPod_modifyPod _ _ _ (fun p => { p with nodeId := toId, status := "running" }) (fun p => rfl)]
                cases hqq : m.pods.find? (fun p => p.id == q) with
                | none => rfl
                | some pq =>
                  have hqid : pq.id = q := find?_pod_id_eq hqq
                  have hoq : (pq.id == podId) = false := by
                    simp only [hqid, beq_eq_false_iff_ne, ne_eq]
                    exact hq
                  simp [hoq, hqid, hq]
    · rw [if_pos hnid]
      refine ⟨?_, fun _ => rfl, ?_⟩
      · constructor
        · intro hfalse
          exact absurd hfalse (by simp)
        · rintro ⟨pod', toNode', hpod', hnid', _⟩
          injection hpod' with e1
          subst e1
          exact absurd hnid' hnid
      · rintro pod' toNode' fromNode' hpod' hnid' _ _ _
        injection hpod' with e1
        subst e1
        exact absurd hnid' hnid

/-- State for the C4 witness: nodes `"X"` (4 cores) and `"Y"` (3 cores),
pod `"w"` (2 cores) on `"X"`. -/
def mC4 : NodeManager :=
  (((NodeManager.empty.addNode "X" 4 0).1.addNode "Y" 3 0).1.addPod "X" "w" 2 0 0).1

/-- Witness for C4: moving `"w"` from `"X"` to `"Y"` debits Y (3 to 1),
credits X (2 to 4) and reassigns the pod; a move with a wrong source node
leaves the state untouched. -/
theorem movePod_atomicity_witness :
    (mC4.movePod "w" "X" "Y").1.findPod "w" =
      some { id := "w", nodeId := "Y", cpuRequired := 2, memoryRequired := 0,
             status := "running", createdAt := 0 } ∧
    ((mC4.movePod "w" "X" "Y").1.findNode "Y").map Node.availableCores = some 1 ∧
    ((mC4.movePod "w" "X" "Y").1.findNode "X").map Node.availableCores = some 4 ∧
    (mC4.movePod "w" "Z" "Y").1 = mC4 := by
  have h := (movePod_atomicity mC4 "w" "X" "Y").2.2
      { id := "w", nodeId := "X", cpuRequired := 2, memoryRequired := 0,
        status := "pending", createdAt := 0 }
      { id := "Y", cpuCores := 3, availableCores := 3, lastHeartbeat := 0,
        status := "healthy", pods := [] }
      { id := "X", cpuCores := 4, availableCores := 2, lastHeartbeat := 0,
        status := "healthy", pods := ["w"] }
      rfl rfl rfl rfl (by decide)
  refine ⟨h.1, (h.2.1 (by decide)).1, (h.2.1 (by decide)).2, ?_⟩
  exact (movePod_atomicity mC4 "w" "Z" "Y").2.1 rfl

/-! ## Claim C1: the capacity invariant -/

/-- The `cpuRequired` the registry's pod map records for `pid` (0 if the id
is unknown — unreachable for the pod sets of a well-formed registry). -/
def lookupCpu (pods : List Pod) (pid : String) : Int :=
  match pods.find? (fun p => p.id == pid) with
  | some p => p.cpuRequired
  | none => 0

/-- Total cpu the pod ids in `l` account for, per the pod map `pods`. -/
def podsCpu (pods : List Pod) (l : List String) : Int :=
  (l.map (lookupCpu pods)).sum

/-- The capacity invariant: every node's `availableCores` plus the cpu of the
pods assigned to it (its `pods` member — the set `getPodsOnNode` reads) is its
total `cpuCores`. -/
def CapacityInv (m : NodeManager) : Prop :=
  ∀ n ∈ m.nodes, n.availableCores + podsCpu m.pods n.pods = n.cpuCores

/-- Well-formedness of the registry, maintained by the JS maps and the
operations: unique node ids, unique pod ids, duplicate-free pod sets, and the
two directions of the node-pod ownership correspondence. -/
def Wf (m : NodeManager) : Prop :=
  (m.nodes.map Node.id).Nodup ∧
  (m.pods.map Pod.id).Nodup ∧
  (∀ n ∈ m.nodes, n.pods.Nodup) ∧
  (∀ n ∈ m.nodes, ∀ pid ∈ n.pods, ∃ p ∈ m.pods, p.id = pid ∧ p.nodeId = n.id) ∧
  (∀ p ∈ m.pods, ∃ n ∈ m.nodes, n.id = p.nodeId ∧ p.id ∈ n.pods)

theorem setDelete_of_not_mem (l : List String) (x : String) (h : x ∉ l) :
    NodeManager.setDelete l x = l := by
  unfold NodeManager.setDelete
  apply List.filter_eq_self.mpr
  intro y hy
  simp only [bne_iff_ne, ne_eq]
  rintro rfl
  exact h hy

theorem mem_setDelete_iff (l : List String) (x y : String) :
    y ∈ NodeManager.setDelete l x ↔ y ∈ l ∧ y ≠ x := by
  unfold NodeManager.setDelete
  rw [List.mem_filter]
  simp

theorem podsCpu_congr (pods1 pods2 : List Pod) (l : List String)
    (h : ∀ pid ∈ l, lookupCpu pods1 pid = lookupCpu pods2 pid) :
    podsCpu pods1 l = podsCpu pods2 l := by
  unfold podsCpu
  exact congrArg List.sum (List.map_congr_left h)

theorem podsCpu_append (pods : List Pod) (l1 l2 : List String) :
    podsCpu pods (l1 ++ l2) = podsCpu pods l1 + podsCpu pods l2 := by
  unfold podsCpu
  rw [List.map_append, List.sum_append]

theorem podsCpu_setDelete (pods : List Pod) (l : List String) (x : String)
    (hnd : l.Nodup) (hx : x ∈ l) :
    podsCpu pods (NodeManager.setDelete l x) = podsCpu pods l - lookupCpu pods x := by
  induction l with
  | nil => simp at hx
  | cons a t ih =>
    by_cases hax : a = x
    · subst hax
      have hnt : a ∉ t := (List.nodup_cons.mp hnd).1
      show podsCpu pods ((a :: t).filter (fun y => y != a)) = _
      rw [List.filter_cons_of_neg (by simp)]
      rw [show List.filter (fun y => y != a) t = NodeManager.setDelete t a from rfl]
      rw [setDelete_of_not_mem t a hnt]
      unfold podsCpu
      rw [List.map_cons, List.sum_cons]
      ring
    · have hxt : x ∈ t := by
        rcases List.mem_cons.mp hx with h1 | h1
        · exact absurd h1.symm hax
        · exact h1
      show podsCpu pods ((a :: t).filter (fun y => y != x)) = _
      rw [List.filter_cons_of_pos (by simp [hax])]
      rw [show List.filter (fun y => y != x) t = NodeManager.setDelete t x from rfl]
      have hrec := ih (List.nodup_cons.mp hnd).2 hxt
      unfold podsCpu at hrec ⊢
      rw [List.map_cons, List.sum_cons, List.map_cons, List.sum_cons, hrec]
      ring

theorem lookupCpu_append_of_present (pods : List Pod) (pod : Pod) (pid : String)
    (h : (pods.find? (fun p => p.id == pid)).isSome) :
    lookupCpu (pods ++ [pod]) pid = lookupCpu pods pid := by
  unfold lookupCpu
  rw [find?_append_of_some _ _ _ h]

theorem lookupCpu_append_self (pods : List Pod) (pod : Pod) (pid : String)
    (hpid : pod.id = pid)
    (h : pods.find? (fun p => p.id == pid) = none) :
    lookupCpu (pods ++ [pod]) pid = pod.cpuRequired := by
  subst hpid
  unfold lookupCpu
  rw [find?_append_of_none _ _ _ h]
  simp [List.find?_cons]

theorem lookupCpu_deletePod_ne (pods : List Pod) (pid x : String) (h : pid ≠ x) :
    lookupCpu (NodeManager.deletePod pods x) pid = lookupCpu pods pid := by
  unfold lookupCpu NodeManager.deletePod
  rw [find?_filter_of_imp]
  intro p hp
  have : p.id = pid := by simpa using hp
  simp [this, h]

theorem lookupCpu_modifyPod (pods : List Pod) (pid0 x : String) (f : Pod → Pod)
    (hid : ∀ p, (f p).id = p.id) (hcpu : ∀ p, (f p).cpuRequired = p.cpuRequired) :
    lookupCpu (NodeManager.modifyPod pods pid0 f) x = lookupCpu pods x := by
  unfold lookupCpu
  rw [findPod_modifyPod _ _ _ _ hid]
  cases pods.find? (fun p => p.id == x) with
  | none => rfl
  | some p =>
    by_cases hb : p.id = pid0
    · simp [hb, hcpu]
    · simp [hb]

theorem setPod_of_fresh (pods : List Pod) (pod : Pod)
    (h : pods.find? (fun p => p.id == pod.id) = none) :
    NodeManager.setPod pods pod = pods ++ [pod] := by
  unfold NodeManager.setPod
  rw [if_neg]
  intro hany
  rcases List.any_eq_true.mp hany with ⟨p, hp, hpe⟩
  rw [List.find?_eq_none] at h
  exact h p hp hpe

theorem eq_of_nodup_map_id {β : Type _} (f : β → String) (l : List β)
    (hnd : (l.map f).Nodup) (a b : β) (ha : a ∈ l) (hb : b ∈ l)
    (hab : f a = f b) : a = b := by
  induction l with
  | nil => simp at ha
  | cons c t ih =>
    rw [List.map_cons, List.nodup_cons] at hnd
    rcases List.mem_cons.mp ha with rfl | hat <;>
      rcases List.mem_cons.mp hb with h2 | h2
    · rw [h2]
    · exact absurd (hab ▸ List.mem_map_of_mem f h2) hnd.1
    · subst h2
      exact absurd (hab ▸ List.mem_map_of_mem f hat) hnd.1
    · exact ih hnd.2 hat h2

theorem lookupCpu_of_find? (pods : List Pod) (pid : String) (pod : Pod)
    (h : pods.find? (fun p => p.id == pid) = some pod) :
    lookupCpu pods pid = pod.cpuRequired := by
  unfold lookupCpu
  rw [h]

theorem addPod_preserves_capacity (m : NodeManager) (hwf : Wf m)
    (hinv : CapacityInv m) (nodeId podId : String) (cpu mem now : Int)
    (hfresh : m.findPod podId = none) :
    CapacityInv (m.addPod nodeId podId cpu mem now).1 := by
  obtain ⟨hndN, hndP, hndS, hmo, hom⟩ := hwf
  have hfresh' : m.pods.find? (fun p => p.id == podId) = none := hfresh
  unfold NodeManager.addPod
  cases hn : m.findNode nodeId with
  | none => exact hinv
  | some node =>
    dsimp only
    by_cases hc : node.availableCores < cpu
    · rw [if_pos hc]
      exact hinv
    · rw [if_neg hc]
      set pd : Pod := { id := podId, nodeId := nodeId, cpuRequired := cpu, memoryRequired := mem, status := "pending", createdAt := now } with hpd
      have hset : NodeManager.setPod m.pods pd = m.pods ++ [pd] :=
        setPod_of_fresh _ _ hfresh'
      intro n' hn'
      dsimp only at hn' ⊢
      rw [hset]
      unfold NodeManager.modifyNode at hn'
      rcases List.mem_map.mp hn' with ⟨n, hn0, rfl⟩
      have hnotin : podId ∉ n.pods := by
        intro hmem
        rcases hmo n hn0 podId hmem with ⟨p, hp, hpid, _⟩
        have hs := isSome_find?_of_mem (fun p => p.id == podId) m.pods p hp (by simp [hpid])
        rw [hfresh'] at hs
        simp at hs
      have hstab : ∀ pid ∈ n.pods,
          lookupCpu (m.pods ++ [pd]) pid = lookupCpu m.pods pid := by
        intro pid hpid
        rcases hmo n hn0 pid hpid with ⟨p, hp, hpe, _⟩
        exact lookupCpu_append_of_present _ _ _
          (isSome_find?_of_mem _ _ p hp (by simp [hpe]))
      by_cases hb : n.id = nodeId
      · have hbeq : (n.id == nodeId) = true := by simp [hb]
        rw [if_pos hbeq]
        have hadd : NodeManager.setAdd n.pods podId = n.pods ++ [podId] := by
          unfold NodeManager.setAdd
          rw [if_neg hnotin]
        dsimp only
        rw [hadd, podsCpu_append, podsCpu_congr _ _ _ hstab]
        have h2 : podsCpu (m.pods ++ [pd]) [podId] = cpu := by
          unfold podsCpu
          simp only [List.map_cons, List.map_nil, List.sum_cons, List.sum_nil]
          rw [lookupCpu_append_self m.pods pd podId rfl hfresh']
          simp [hpd]
        rw [h2]
        have := hinv n hn0
        omega
      · have hbne : ¬((n.id == nodeId) = true) := by simp [hb]
        rw [if_neg hbne]
        rw [podsCpu_congr _ _ _ hstab]
        exact hinv n hn0

theorem removePod_preserves_capacity (m : NodeManager) (hwf : Wf m)
    (hinv : CapacityInv m) (podId : String) :
    CapacityInv (m.removePod podId).1 := by
  obtain ⟨hndN, hndP, hndS, hmo, hom⟩ := hwf
  unfold NodeManager.removePod
  cases hp : m.findPod podId with
  | none => exact hinv
  | some pod =>
    dsimp only
    intro n' hn'
    unfold NodeManager.modifyNode at hn'
    rcases List.mem_map.mp hn' with ⟨n, hn0, rfl⟩
    have hpodid : pod.id = podId := find?_pod_id_eq hp
    have hpmem : pod ∈ m.pods := List.mem_of_find?_eq_some hp
    by_cases hb : n.id = pod.nodeId
    · have hbeq : (n.id == pod.nodeId) = true := by simp [hb]
      rw [if_pos hbeq]
      have hmem : podId ∈ n.pods := by
        rcases hom pod hpmem with ⟨nn, hnn, hnnid, hnnmem⟩
        have : nn = n :=
          eq_of_nodup_map_id Node.id m.nodes hndN nn n hnn hn0 (by rw [hnnid, hb])
        rw [← hpodid, ← this]
        exact hnnmem
      dsimp only
      have hcongr : ∀ pid ∈ NodeManager.setDelete n.pods podId,
          lookupCpu (NodeManager.deletePod m.pods podId) pid = lookupCpu m.pods pid := by
        intro pid hpid
        exact lookupCpu_deletePod_ne _ _ _ ((mem_setDelete_iff _ _ _).mp hpid).2
      rw [podsCpu_congr _ _ _ hcongr]
      rw [podsCpu_setDelete m.pods n.pods podId (hndS n hn0) hmem]
      rw [lookupCpu_of_find? _ _ _ hp]
      have := hinv n hn0
      omega
    · have hbne : ¬((n.id == pod.nodeId) = true) := by simp [hb]
      rw [if_neg hbne]
      have hcongr : ∀ pid ∈ n.pods,
          lookupCpu (NodeManager.deletePod m.pods podId) pid = lookupCpu m.pods pid := by
        intro pid hpid
        apply lookupCpu_deletePod_ne
        intro hcontra
        subst hcontra
        rcases hmo n hn0 pid hpid with ⟨q, hq, hqid, hqnode⟩
        have : q = pod :=
          eq_of_nodup_map_id Pod.id m.pods hndP q pod hq hpmem (by rw [hqid, hpodid])
        rw [this] at hqnode
        exact hb hqnode.symm
      rw [podsCpu_congr _ _ _ hcongr]
      exact hinv n hn0

theorem podsCpu_singleton (pods : List Pod) (pid : String) :
    podsCpu pods [pid] = lookupCpu pods pid := by
  unfold podsCpu
  simp

theorem movePod_preserves_capacity (m : NodeManager) (hwf : Wf m)
    (hinv : CapacityInv m) (podId fromId toId : String) :
    CapacityInv (m.movePod podId fromId toId).1 := by
  obtain ⟨hndN, hndP, hndS, hmo, hom⟩ := hwf
  unfold NodeManager.movePod
  cases hp : m.findPod podId with
  | none => exact hinv
  | some pod =>
    dsimp only
    by_cases hnid : pod.nodeId = fromId
    · rw [if_neg (not_not_intro hnid)]
      cases hf : m.findNode fromId with
      | none => exact hinv
      | some fromNode =>
        cases ht : m.findNode toId with
        | none => exact hinv
        | some toNode =>
          dsimp only
          by_cases hcap : toNode.availableCores < pod.cpuRequired
          · rw [if_pos hcap]
            exact hinv
          · rw [if_neg hcap]
            have hpodid : pod.id = podId := find?_pod_id_eq hp
            have hpmem : pod ∈ m.pods := List.mem_of_find?_eq_some hp
            have hstab : ∀ x, lookupCpu (NodeManager.modifyPod m.pods podId
                (fun p => { p with nodeId := toId, status := "running" })) x =
                lookupCpu m.pods x :=
              fun x => lookupCpu_modifyPod m.pods podId x _ (fun p => rfl) (fun p => rfl)
            have hcongrAll : ∀ l, podsCpu (NodeManager.modifyPod m.pods podId
                (fun p => { p with nodeId := toId, status := "running" })) l =
                podsCpu m.pods l :=
              fun l => podsCpu_congr _ _ l (fun pid _ => hstab pid)
            have hlook : lookupCpu m.pods podId = pod.cpuRequired :=
              lookupCpu_of_find? _ _ _ hp
            have hOwnerIn : ∀ nn ∈ m.nodes, nn.id = fromId → podId ∈ nn.pods := by
              intro nn hnn hnnid
              rcases hom pod hpmem with ⟨n2, hn2, hn2id, hn2mem⟩
              have he : n2 = nn := eq_of_nodup_map_id Node.id m.nodes hndN n2 nn hn2 hnn
                (by rw [hn2id, hnid, hnnid])
              rw [← hpodid, ← he]
              exact hn2mem
            have hNotOwner : ∀ nn ∈ m.nodes, nn.id ≠ fromId → podId ∉ nn.pods := by
              intro nn hnn hnnid hmem
              rcases hmo nn hnn podId hmem with ⟨q, hq, hqid, hqnode⟩
              have he : q = pod := eq_of_nodup_map_id Pod.id m.pods hndP q pod hq hpmem
                (by rw [hqid, hpodid])
              rw [he] at hqnode
              exact hnnid (by rw [← hqnode, hnid])
            intro n' hn'
            dsimp only at hn' ⊢
            unfold NodeManager.modifyNode at hn'
            simp only [List.map_map] at hn'
            rcases List.mem_map.mp hn' with ⟨n, hn0, rfl⟩
            simp only [Function.comp_apply]
            by_cases hbf : n.id = fromId <;> by_cases hbt : n.id = toId
            · have hbfb : (n.id == fromId) = true := by simp [hbf]
              have hbtb : (n.id == toId) = true := by simp [hbt]
              simp [hbfb, hbtb]
              have hin : podId ∈ n.pods := hOwnerIn n hn0 hbf
              have hnotdel : podId ∉ NodeManager.setDelete n.pods podId := by
                rw [mem_setDelete_iff]
                simp
              have hadd : NodeManager.setAdd (NodeManager.setDelete n.pods podId) podId =
                  NodeManager.setDelete n.pods podId ++ [podId] := by
                unfold NodeManager.setAdd
                rw [if_neg hnotdel]
              rw [hadd, podsCpu_append, podsCpu_singleton]
              simp only [hcongrAll, hstab]
              rw [podsCpu_setDelete m.pods n.pods podId (hndS n hn0) hin, hlook]
              have := hinv n hn0
              omega
            · have hbfb : (n.id == fromId) = true := by simp [hbf]
              have hbtb : (n.id == toId) = false := by simp [hbt]
              simp [hbfb, hbtb]
              simp only [hcongrAll]
              rw [podsCpu_setDelete m.pods n.pods podId (hndS n hn0) (hOwnerIn n hn0 hbf),
                hlook]
              have := hinv n hn0
              omega
            · have hbfb : (n.id == fromId) = false := by simp [hbf]
              have hbtb : (n.id == toId) = true := by simp [hbt]
              simp [hbfb, hbtb]
              have hnotin : podId ∉ n.pods := hNotOwner n hn0 hbf
              have hadd : NodeManager.setAdd n.pods podId = n.pods ++ [podId] := by
                unfold NodeManager.setAdd
                rw [if_neg hnotin]
              rw [hadd, podsCpu_append, podsCpu_singleton]
              simp only [hcongrAll, hstab]
              rw [hlook]
              have := hinv n hn0
              omega
            · have hbfb : (n.id == fromId) = false := by simp [hbf]
              have hbtb : (n.id == toId) = false := by simp [hbt]
              simp [hbfb, hbtb]
              simp only [hcongrAll]
              exact hinv n hn0
    · rw [if_pos hnid]
      exact hinv

/-- C1 (amended).  The capacity invariant
`availableCores + Σ cpuRequired(assigned pods) = cpuCores` is preserved by
`movePod` and `removePod` unconditionally, and by `addPod` provided the pod id
being added is not already registered, on every well-formed registry state.
(As stated the claim is false: `addPod` with an id already in use silently
overwrites that pod's record while both nodes' accounting still reflects the
old entry — see the counterexample.) -/
theorem capacity_invariant_preserved (m : NodeManager) (hwf : Wf m)
    (hinv : CapacityInv m) :
    (∀ nodeId podId cpu mem now, m.findPod podId = none →
      CapacityInv (m.addPod nodeId podId cpu mem now).1) ∧
    (∀ podId fromId toId, CapacityInv (m.movePod podId fromId toId).1) ∧
    (∀ podId, CapacityInv (m.removePod podId).1) :=
  ⟨fun nodeId podId cpu mem now hfresh =>
      addPod_preserves_capacity m hwf hinv nodeId podId cpu mem now hfresh,
    fun podId fromId toId => movePod_preserves_capacity m hwf hinv podId fromId toId,
    fun podId => removePod_preserves_capacity m hwf hinv podId⟩

/-- State for the C1 counterexample: node `"A"` (4 cores) hosting pod `"p"`
(1 core) — a well-formed state satisfying the invariant. -/
def mC1 : NodeManager :=
  ((NodeManager.empty.addNode "A" 4 0).1.addPod "A" "p" 1 0 0).1

/-- C1, counterexample to the claim as stated: from the valid state `mC1`,
the completed registry operation `addPod("A", "p", 2)` — the id `"p"` is
already in use — succeeds and leaves node A with
`availableCores = 1` while its single pod records `cpuRequired = 2`:
`1 + 2 ≠ 4`, so the invariant does not hold at this observable instant. -/
theorem capacity_invariant_counterexample :
    Wf mC1 ∧ CapacityInv mC1 ∧
    (mC1.addPod "A" "p" 2 0 0).2.isSome = true ∧
    ¬ CapacityInv (mC1.addPod "A" "p" 2 0 0).1 := by
  refine ⟨?_, ?_, rfl, ?_⟩
  · unfold Wf
    decide
  · unfold CapacityInv
    decide
  · unfold CapacityInv
    decide

/-- State for the C1 witness: nodes `"A"` (4 cores) and `"B"` (2 cores), pod
`"p0"` (1 core) on `"A"`. -/
def mW : NodeManager :=
  (((NodeManager.empty.addNode "A" 4 0).1.addNode "B" 2 0).1.addPod "A" "p0" 1 0 0).1

/-- Witness for C1 at a concrete well-formed state: a fresh-id `addPod`, a
`movePod` and a `removePod` all preserve the invariant. -/
theorem capacity_invariant_preserved_witness :
    CapacityInv (mW.addPod "A" "p1" 2 0 0).1 ∧
    CapacityInv (mW.movePod "p0" "A" "B").1 ∧
    CapacityInv (mW.removePod "p0").1 := by
  have h := capacity_invariant_preserved mW (by unfold Wf; decide)
    (by unfold CapacityInv; decide)
  exact ⟨h.1 "A" "p1" 2 0 0 (by decide), h.2.1 "p0" "A" "B", h.2.2 "p0"⟩

/-! ## Claim C7: heartbeat recording -/

/-- The status the heartbeat fold leaves for pod id `pid`: the value of the
last entry for `pid` in the map, if any. -/
def lastStatus (updates : List (String × String)) (pid : String) : Option String :=
  (updates.reverse.find? (fun u => u.1 == pid)).map (fun u => u.2)

theorem lastStatus_cons (u : String × String) (t : List (String × String))
    (pid : String) :
    lastStatus (u :: t) pid =
      match lastStatus t pid with
      | some s => some s
      | none => if u.1 == pid then some u.2 else none := by
  unfold lastStatus
  rw [List.reverse_cons]
  cases hfs : t.reverse.find? (fun v => v.1 == pid) with
  | some v =>
    rw [find?_append_of_some _ _ _ (by rw [hfs]; rfl)]
    rw [hfs]
    simp
  | none =>
    rw [find?_append_of_none _ _ _ hfs]
    cases hu : (u.1 == pid) with
    | true => simp [List.find?_cons, hu]
    | false => simp [List.find?_cons, hu]

theorem hbFold_nodes (updates : List (String × String)) (acc : NodeManager) :
    (updates.foldl (fun acc ps =>
      { acc with pods := NodeManager.modifyPod acc.pods ps.1 (fun p => { p with status := ps.2 }) }) acc).nodes = acc.nodes := by
  induction updates generalizing acc with
  | nil => rfl
  | cons u t ih => simpa using ih _

theorem hbFold_pods (updates : List (String × String)) (acc : NodeManager) :
    (updates.foldl (fun acc ps =>
      { acc with pods := NodeManager.modifyPod acc.pods ps.1 (fun p => { p with status := ps.2 }) }) acc).pods =
    updates.foldl (fun pods ps => NodeManager.modifyPod pods ps.1
      (fun p => { p with status := ps.2 })) acc.pods := by
  induction updates generalizing acc with
  | nil => rfl
  | cons u t ih => simpa using ih _

theorem hbPodsFold_find? (updates : List (String × String)) (pods : List Pod)
    (pid : String) :
    (updates.foldl (fun pods ps => NodeManager.modifyPod pods ps.1
        (fun p => { p with status := ps.2 })) pods).find? (fun p => p.id == pid) =
      (pods.find? (fun p => p.id == pid)).map (fun p =>
        match lastStatus updates pid with
        | some s => { p with status := s }
        | none => p) := by
  induction updates generalizing pods with
  | nil =>
    simp only [List.foldl_nil]
    cases hx : pods.find? (fun p => p.id == pid) <;> simp [lastStatus, hx]
  | cons u t ih =>
    rw [List.foldl_cons, ih]
    rw [findPod_modifyPod _ _ _ (fun p => { p with status := u.2 }) (fun p => rfl)]
    rw [lastStatus_cons]
    cases hx : pods.find? (fun p => p.id == pid) with
    | none => rfl
    | some p =>
      have hpid : p.id = pid := find?_pod_id_eq hx
      simp only [Option.map_some']
      by_cases hu : u.1 = pid
      · have hub : (p.id == u.1) = true := by simp [hpid, hu]
        have hub2 : (u.1 == pid) = true := by simp [hu]
        simp only [hub, if_true, hub2]
        cases lastStatus t pid <;> rfl
      · have hub : (p.id == u.1) = false := by
          simp only [hpid, beq_eq_false_iff_ne, ne_eq]
          exact fun hcontra => hu hcontra.symm
        have hub2 : (u.1 == pid) = false := by simp [hu]
        simp only [hub, Bool.false_eq_true, if_false, hub2]
        cases lastStatus t pid <;> rfl

/-- C7 (amended).  `recordHeartbeat` fails exactly when the node id is
unknown (and then changes nothing); otherwise it sets the node's
`lastHeartbeat` to now and its status to `'healthy'`, leaves every other node
unchanged, and applies each status update to whatever pod in the registry has
that id — the last entry winning — regardless of which node the pod belongs
to; unknown pod ids are ignored without error.  (The claim's restriction
"only to pods that currently belong to that node" is the corrected part: the
code checks only `this.pods.get(podId)`, never `pod.nodeId`.) -/
theorem recordHeartbeat_spec (m : NodeManager) (nodeId : String)
    (updates : List (String × String)) (now : Int) :
    ((m.recordHeartbeat nodeId updates now).2 = true ↔
      (m.findNode nodeId).isSome = true) ∧
    ((m.recordHeartbeat nodeId updates now).2 = false →
      (m.recordHeartbeat nodeId updates now).1 = m) ∧
    (∀ node, m.findNode nodeId = some node →
      (m.recordHeartbeat nodeId updates now).1.findNode nodeId =
        some { node with lastHeartbeat := now, status := "healthy" }) ∧
    (∀ x, x ≠ nodeId →
      (m.recordHeartbeat nodeId updates now).1.findNode x = m.findNode x) ∧
    ((m.findNode nodeId).isSome = true →
      ∀ pid, (m.recordHeartbeat nodeId updates now).1.findPod pid =
        (m.findPod pid).map (fun p =>
          match lastStatus updates pid with
          | some s => { p with status := s }
          | none => p)) := by
  unfold NodeManager.recordHeartbeat
  cases hn : m.findNode nodeId with
  | none =>
    refine ⟨by simp, fun _ => rfl, ?_, fun x _ => rfl, ?_⟩
    · intro node hnode
      simp at hnode
    · intro hsome
      simp at hsome
  | some node0 =>
    dsimp only
    have hnid : node0.id = nodeId := find?_node_id_eq hn
    refine ⟨by simp, by simp, ?_, ?_, ?_⟩
    · intro node hnode
      injection hnode with hnode
      subst hnode
      show NodeManager.findNode _ nodeId = _
      unfold NodeManager.findNode
      rw [hbFold_nodes]
      dsimp only
      rw [findNode_modifyNode _ _ _ (fun n => { n with lastHeartbeat := now, status := "healthy" }) (fun n => rfl)]
      rw [show m.nodes.find? (fun n => n.id == nodeId) = some node0 from hn]
      simp [hnid]
    · intro x hx
      show NodeManager.findNode _ x = _
      unfold NodeManager.findNode
      rw [hbFold_nodes]
      dsimp only
      rw [findNode_modifyNode _ _ _ (fun n => { n with lastHeartbeat := now, status := "healthy" }) (fun n => rfl)]
      cases hxx : m.nodes.find? (fun n => n.id == x) with
      | none => rfl
      | some nx =>
        have hxid : nx.id = x := find?_node_id_eq hxx
        have hne : nx.id ≠ nodeId := by
          rw [hxid]
          exact hx
        simp [hne]
    · intro _ pid
      show NodeManager.findPod _ pid = _
      unfold NodeManager.findPod
      rw [hbFold_pods]
      dsimp only
      exact hbPodsFold_find? updates m.pods pid

/-- State for the C7 counterexample and witness: nodes `"a"` and `"b"`
(4 cores each), pod `"p"` (1 core) on `"b"`. -/
def mC7 : NodeManager :=
  (((NodeManager.empty.addNode "a" 4 0).1.addNode "b" 4 0).1.addPod "b" "p" 1 0 0).1

/-- C7, counterexample to the claim as stated: a heartbeat for node `"a"`
carrying a status for pod `"p"` — which belongs to node `"b"` — changes that
pod's status, though the claim requires pods on other nodes to be left
unchanged. -/
theorem recordHeartbeat_counterexample :
    ((mC7.findPod "p").map Pod.nodeId = some "b") ∧
    (mC7.recordHeartbeat "a" [("p", "failed")] 10).2 = true ∧
    (((mC7.recordHeartbeat "a" [("p", "failed")] 10).1.findPod "p").map Pod.status =
      some "failed") := by
  refine ⟨rfl, rfl, rfl⟩

/-- Witness for C7 at a concrete state: the heartbeat succeeds, refreshes
node `"a"` and leaves node `"b"` untouched. -/
theorem recordHeartbeat_spec_witness :
    (mC7.recordHeartbeat "a" [("p", "failed")] 10).2 = true ∧
    (mC7.recordHeartbeat "a" [("p", "failed")] 10).1.findNode "a" =
      some { id := "a", cpuCores := 4, availableCores := 4, lastHeartbeat := 10,
             status := "healthy", pods := [] } ∧
    (mC7.recordHeartbeat "a" [("p", "failed")] 10).1.findNode "b" = mC7.findNode "b" := by
  have h := recordHeartbeat_spec mC7 "a" [("p", "failed")] 10
  exact ⟨(h.1).mpr rfl, h.2.2.1 _ rfl, h.2.2.2.1 "b" (by decide)⟩

/-! ## Claim C6: the health-monitor sweep -/

/-- The fields of a node the sweep's trigger condition and transition touch:
id, status, lastHeartbeat. -/
def sig (n : Node) : String × String × Int :=
  (n.id, n.status, n.lastHeartbeat)

/-- `staleTrigger` as a function of a node's `sig` triple. -/
def trigT (now : Int) (t : String × String × Int) : Bool :=
  decide (t.2.2 < now - 90000) && t.2.1 != "unhealthy"

/-- The status transformation a sweep over the ids `ids` applies to a node's
`sig` triple. -/
def gIds (now : Int) (ids : List String) (t : String × String × Int) :
    String × String × Int :=
  if t.1 ∈ ids ∧ trigT now t = true then (t.1, "unhealthy", t.2.2) else t

/-- Every pod id in a node's pod set is a key of the pod map — the domain on
which `getPodsOnNode` (hence the JS sweep) does not throw. -/
def PodsClosed (m : NodeManager) : Prop :=
  ∀ n ∈ m.nodes, ∀ pid ∈ n.pods, ∃ p ∈ m.pods, p.id = pid

theorem gIds_fst (now : Int) (ids : List String) (t : String × String × Int) :
    (gIds now ids t).1 = t.1 := by
  unfold gIds
  split <;> rfl

theorem gIds_nil (now : Int) (t : String × String × Int) :
    gIds now [] t = t := by
  simp [gIds]

theorem gIds_cons (now : Int) (nid : String) (rest : List String)
    (t : String × String × Int) :
    gIds now rest (gIds now [nid] t) = gIds now (nid :: rest) t := by
  by_cases h2 : trigT now t = true
  · by_cases h1 : t.1 = nid
    · have hin : gIds now [nid] t = (t.1, "unhealthy", t.2.2) := by
        unfold gIds
        rw [if_pos ⟨by simp [h1], h2⟩]
      rw [hin]
      have hf : trigT now (t.1, "unhealthy", t.2.2) = false := by
        unfold trigT
        simp
      unfold gIds
      rw [if_neg (fun hc => by rw [hf] at hc; exact absurd hc.2 (by simp))]
      rw [if_pos ⟨by simp [h1], h2⟩]
    · have hin : gIds now [nid] t = t := by
        unfold gIds
        rw [if_neg (fun hc => h1 (by simpa using hc.1))]
      rw [hin]
      unfold gIds
      by_cases h3 : t.1 ∈ rest
      · rw [if_pos ⟨h3, h2⟩, if_pos ⟨List.mem_cons_of_mem _ h3, h2⟩]
      · rw [if_neg (fun hc => h3 hc.1)]
        rw [if_neg (fun hc => ?_)]
        rcases List.mem_cons.mp hc.1 with he | he
        · exact h1 he
        · exact h3 he
  · have hin : gIds now [nid] t = t := by
      unfold gIds
      rw [if_neg (fun hc => h2 hc.2)]
    rw [hin]
    unfold gIds
    rw [if_neg (fun hc => h2 hc.2), if_neg (fun hc => h2 hc.2)]

theorem map_sig_modifyNode (l : List Node) (k : String) (f : Node → Node)
    (hf : ∀ n, sig (f n) = sig n) :
    (NodeManager.modifyNode l k f).map sig = l.map sig := by
  unfold NodeManager.modifyNode
  rw [List.map_map]
  apply List.map_congr_left
  intro a _
  by_cases h : (a.id == k) = true
  · simp [Function.comp, h, hf]
  · simp only [Bool.not_eq_true] at h
    simp [Function.comp, h]

theorem movePod_sig (m : NodeManager) (a b c : String) :
    (m.movePod a b c).1.nodes.map sig = m.nodes.map sig := by
  unfold NodeManager.movePod
  cases hp : m.findPod a with
  | none => rfl
  | some pod =>
    dsimp only
    by_cases hnid : pod.nodeId = b
    · rw [if_neg (not_not_intro hnid)]
      cases hf : m.findNode b with
      | none => rfl
      | some fromNode =>
        cases ht : m.findNode c with
        | none => rfl
        | some toNode =>
          dsimp only
          by_cases hcap : toNode.availableCores < pod.cpuRequired
          · rw [if_pos hcap]
          · rw [if_neg hcap]
            dsimp only
            rw [map_sig_modifyNode _ _ (fun n => { n with pods := NodeManager.setAdd n.pods a }) (fun n => rfl)]
            rw [map_sig_modifyNode _ _ (fun n => { n with pods := NodeManager.setDelete n.pods a }) (fun n => rfl)]
            rw [map_sig_modifyNode _ _ (fun n => { n with availableCores := n.availableCores - pod.cpuRequired }) (fun n => rfl)]
            rw [map_sig_modifyNode _ _ (fun n => { n with availableCores := n.availableCores + pod.cpuRequired }) (fun n => rfl)]
    · rw [if_pos hnid]

theorem hmHandle_sig (m : NodeManager) (nodeId : String) :
    (HealthMonitor.handleNodeFailure m nodeId).nodes.map sig = m.nodes.map sig := by
  unfold HealthMonitor.handleNodeFailure
  generalize m.getPodsOnNode nodeId = pvs
  induction pvs generalizing m with
  | nil => rfl
  | cons pv t ih =>
    rw [List.foldl_cons, ih]
    cases hs : PodScheduler.schedulePod m pv.cpuRequired with
    | none => rfl
    | some newNodeId => exact movePod_sig m pv.id nodeId newNodeId

theorem find?_sig_after_g (g : String × String × Int → String × String × Int)
    (hg1 : ∀ t, (g t).1 = t.1) (x : String)
    (hgx : ∀ t, t.1 = x → g t = t) :
    ∀ (l1 l2 : List Node), l2.map sig = (l1.map sig).map g →
    (l2.find? (fun n => n.id == x)).map sig =
      (l1.find? (fun n => n.id == x)).map sig := by
  intro l1
  induction l1 with
  | nil =>
    intro l2 h
    cases l2 with
    | nil => rfl
    | cons b t2 => simp at h
  | cons a t1 ih =>
    intro l2 h
    cases l2 with
    | nil => simp at h
    | cons b t2 =>
      simp only [List.map_cons, List.cons.injEq] at h
      have hid : b.id = a.id := by
        have hfst := congrArg Prod.fst h.1
        rw [hg1] at hfst
        exact hfst
      cases hax : (a.id == x) with
      | true =>
        have hbx : (b.id == x) = true := by rw [hid]; exact hax
        simp only [List.find?_cons, hax, hbx, Option.map_some']
        rw [h.1, hgx]
        have : a.id = x := by simpa using hax
        exact this
      | false =>
        have hbx : (b.id == x) = false := by rw [hid]; exact hax
        simp only [List.find?_cons, hax, hbx]
        exact ih t2 h.2

theorem find?_self_of_nodup (l : List Node) (hnd : (l.map Node.id).Nodup)
    (n : Node) (hn : n ∈ l) : l.find? (fun x => x.id == n.id) = some n := by
  induction l with
  | nil => simp at hn
  | cons a t ih =>
    rw [List.map_cons, List.nodup_cons] at hnd
    rcases List.mem_cons.mp hn with rfl | hnt
    · simp [List.find?_cons]
    · have hne : (a.id == n.id) = false := by
        simp only [beq_eq_false_iff_ne, ne_eq]
        intro hcontra
        exact hnd.1 (by rw [hcontra]; exact List.mem_map_of_mem Node.id hnt)
      simp only [List.find?_cons, hne]
      exact ih hnd.2 hnt

theorem filter_map_comm {α β : Type _} (f : α → β) (p : β → Bool) (l : List α) :
    (l.map f).filter p = (l.filter (fun a => p (f a))).map f := by
  induction l with
  | nil => rfl
  | cons a t ih =>
    rw [List.map_cons, List.filter_cons, List.filter_cons]
    cases hpa : p (f a) <;> simp [hpa, ih]

/-- The per-id trigger predicate a sweep evaluates against the live registry
`s`: whether the node currently stored under `nid` satisfies `staleTrigger`. -/
def pTrig (now : Int) (s : NodeManager) (nid : String) : Bool :=
  match (s.nodes.find? (fun n => n.id == nid)).map sig with
  | some t => trigT now t
  | none => false

theorem gIds_cons_of_ne (now : Int) (nid : String) (rest : List String)
    (t : String × String × Int) (h : t.1 ≠ nid) :
    gIds now (nid :: rest) t = gIds now rest t := by
  unfold gIds
  by_cases hc : t.1 ∈ rest ∧ trigT now t = true
  · rw [if_pos ⟨List.mem_cons_of_mem _ hc.1, hc.2⟩, if_pos hc]
  · have hnc : ¬(t.1 ∈ nid :: rest ∧ trigT now t = true) := by
      intro hcc
      rcases List.mem_cons.mp hcc.1 with he | he
      · exact h he
      · exact hc ⟨he, hcc.2⟩
    rw [if_neg hnc, if_neg hc]

theorem gIds_of_not_trig (now : Int) (ids : List String)
    (t : String × String × Int) (h : trigT now t = false) :
    gIds now ids t = t := by
  unfold gIds
  rw [if_neg (fun hc => by rw [h] at hc; exact absurd hc.2 (by simp))]

theorem tickStep_eq_none (now : Int) (s : NodeManager) (acc : List String)
    (nid : String) (h : s.findNode nid = none) :
    HealthMonitor.tickStep now (s, acc) nid = (s, acc) := by
  unfold HealthMonitor.tickStep
  dsimp only
  rw [h]

theorem tickStep_eq_noTrig (now : Int) (s : NodeManager) (acc : List String)
    (nid : String) (node : Node) (h : s.findNode nid = some node)
    (ht : HealthMonitor.staleTrigger now node = false) :
    HealthMonitor.tickStep now (s, acc) nid = (s, acc) := by
  unfold HealthMonitor.tickStep
  dsimp only
  rw [h]
  simp [ht]

/-- The registry with the node stored under `nid` marked `'unhealthy'` —
the first mutation of a fired sweep iteration. -/
def markUnhealthy (s : NodeManager) (nid : String) : NodeManager :=
  { s with nodes := NodeManager.modifyNode s.nodes nid (fun n => { n with status := "unhealthy" }) }

theorem tickStep_eq_trig (now : Int) (s : NodeManager) (acc : List String)
    (nid : String) (node : Node) (h : s.findNode nid = some node)
    (ht : HealthMonitor.staleTrigger now node = true) :
    HealthMonitor.tickStep now (s, acc) nid =
      (HealthMonitor.handleNodeFailure (markUnhealthy s nid) nid, acc ++ [nid]) := by
  unfold HealthMonitor.tickStep markUnhealthy
  dsimp only
  rw [h]
  simp [ht]

theorem map_id_eq_map_fst_sig (l : List Node) :
    l.map Node.id = (l.map sig).map Prod.fst := by
  rw [List.map_map]
  apply List.map_congr_left
  intro a _
  rfl

theorem tick_fold (now : Int) :
    ∀ (ids : List String) (s : NodeManager) (acc : List String),
    (s.nodes.map Node.id).Nodup → ids.Nodup →
    ((ids.foldl (HealthMonitor.tickStep now) (s, acc)).1.nodes.map sig =
        (s.nodes.map sig).map (gIds now ids)) ∧
    (ids.foldl (HealthMonitor.tickStep now) (s, acc)).2 =
      acc ++ ids.filter (pTrig now s) := by
  intro ids
  induction ids with
  | nil =>
    intro s acc _ _
    rw [List.foldl_nil]
    constructor
    · symm
      calc (s.nodes.map sig).map (gIds now [])
          = (s.nodes.map sig).map (fun t => t) :=
            List.map_congr_left (fun t _ => gIds_nil now t)
        _ = s.nodes.map sig := List.map_id' _
    · simp
  | cons nid rest ih =>
    intro s acc hndS hndI
    rw [List.foldl_cons]
    have hnidrest : nid ∉ rest := (List.nodup_cons.mp hndI).1
    have hndRest : rest.Nodup := (List.nodup_cons.mp hndI).2
    cases hlook : s.findNode nid with
    | none =>
      rw [tickStep_eq_none now s acc nid hlook]
      obtain ⟨ihA, ihB⟩ := ih s acc hndS hndRest
      have hlook' : s.nodes.find? (fun n => n.id == nid) = none := hlook
      have hno : ∀ y ∈ s.nodes, y.id ≠ nid := by
        intro y hy
        have := List.find?_eq_none.mp hlook' y hy
        simpa using this
      constructor
      · rw [ihA, List.map_map, List.map_map]
        apply List.map_congr_left
        intro y hy
        simp only [Function.comp_apply]
        exact (gIds_cons_of_ne now nid rest (sig y) (hno y hy)).symm
      · rw [ihB]
        congr 1
        have hpf : pTrig now s nid = false := by
          unfold pTrig
          rw [hlook']
          rfl
        rw [List.filter_cons_of_neg (by rw [hpf]; simp)]
    | some node =>
      have hnodeid : node.id = nid := find?_node_id_eq hlook
      have hnodemem : node ∈ s.nodes := List.mem_of_find?_eq_some hlook
      have hlook' : s.nodes.find? (fun n => n.id == nid) = some node := hlook
      by_cases htr : HealthMonitor.staleTrigger now node = true
      · rw [tickStep_eq_trig now s acc nid node hlook htr]
        have hsig1 : (markUnhealthy s nid).nodes.map sig =
            (s.nodes.map sig).map (gIds now [nid]) := by
          unfold markUnhealthy NodeManager.modifyNode
          dsimp only
          rw [List.map_map, List.map_map]
          apply List.map_congr_left
          intro y hy
          simp only [Function.comp_apply]
          by_cases hyid : y.id = nid
          · have hyb : (y.id == nid) = true := by simp [hyid]
            have hynode : y = node :=
              eq_of_nodup_map_id Node.id s.nodes hndS y node hy hnodemem
                (by rw [hyid, hnodeid])
            rw [if_pos hyb]
            unfold gIds
            rw [if_pos ⟨by simp only [List.mem_singleton]; exact hyid,
              by rw [hynode]; exact htr⟩]
            rfl
          · have hyb : (y.id == nid) = false := by simp [hyid]
            rw [if_neg (by rw [hyb]; simp)]
            unfold gIds
            rw [if_neg (fun hc => hyid (by simpa using hc.1))]
        have hsig2 :
            (HealthMonitor.handleNodeFailure (markUnhealthy s nid) nid).nodes.map sig =
            (s.nodes.map sig).map (gIds now [nid]) := by
          rw [hmHandle_sig]
          exact hsig1
        have hids2 :
            (HealthMonitor.handleNodeFailure (markUnhealthy s nid) nid).nodes.map Node.id =
            s.nodes.map Node.id := by
          rw [map_id_eq_map_fst_sig, hsig2, List.map_map]
          rw [map_id_eq_map_fst_sig, List.map_map, List.map_map]
          apply List.map_congr_left
          intro y _
          simp only [Function.comp_apply]
          exact gIds_fst now [nid] (sig y)
        have hnd2 : ((HealthMonitor.handleNodeFailure (markUnhealthy s nid) nid).nodes.map
            Node.id).Nodup := by
          rw [hids2]
          exact hndS
        obtain ⟨ihA, ihB⟩ :=
          ih (HealthMonitor.handleNodeFailure (markUnhealthy s nid) nid) (acc ++ [nid])
            hnd2 hndRest
        constructor
        · rw [ihA, hsig2, List.map_map]
          apply List.map_congr_left
          intro t _
          simp only [Function.comp_apply]
          exact gIds_cons now nid rest t
        · rw [ihB, List.append_assoc]
          congr 1
          have hfeq : rest.filter (pTrig now
              (HealthMonitor.handleNodeFailure (markUnhealthy s nid) nid)) =
              rest.filter (pTrig now s) := by
            apply List.filter_congr
            intro nid2 hnid2
            have hne : nid2 ≠ nid := fun hc => hnidrest (hc ▸ hnid2)
            have hfind := find?_sig_after_g (gIds now [nid]) (gIds_fst now [nid]) nid2
              (fun t htn => by
                unfold gIds
                rw [if_neg (fun hc => hne (by rw [← htn]; simpa using hc.1))])
              s.nodes
              (HealthMonitor.handleNodeFailure (markUnhealthy s nid) nid).nodes
              hsig2
            unfold pTrig
            rw [hfind]
          rw [hfeq]
          have hpt : pTrig now s nid = true := by
            unfold pTrig
            rw [hlook']
            exact htr
          rw [List.filter_cons_of_pos hpt]
          simp
      · have htr2 : HealthMonitor.staleTrigger now node = false := by
          cases h : HealthMonitor.staleTrigger now node
          · rfl
          · exact absurd h htr
        rw [tickStep_eq_noTrig now s acc nid node hlook htr2]
        obtain ⟨ihA, ihB⟩ := ih s acc hndS hndRest
        constructor
        · rw [ihA, List.map_map, List.map_map]
          apply List.map_congr_left
          intro y hy
          simp only [Function.comp_apply]
          by_cases hyid : y.id = nid
          · have hynode : y = node :=
              eq_of_nodup_map_id Node.id s.nodes hndS y node hy hnodemem
                (by rw [hyid, hnodeid])
            have hnt : trigT now (sig y) = false := by
              rw [hynode]
              exact htr2
            rw [gIds_of_not_trig now rest (sig y) hnt,
              gIds_of_not_trig now (nid :: rest) (sig y) hnt]
          · exact (gIds_cons_of_ne now nid rest (sig y) hyid).symm
        · rw [ihB]
          congr 1
          have hpf : pTrig now s nid = false := by
            unfold pTrig
            rw [hlook']
            exact htr2
          rw [List.filter_cons_of_neg (by rw [hpf]; simp)]

/-- C6 (amended).  On each health-monitor tick, exactly the nodes whose
`lastHeartbeat` is more than 90000 ms old and whose status is not already
`'unhealthy'` transition to `'unhealthy'`, and recovery
(`HealthMonitor.handleNodeFailure`) is invoked exactly for those nodes, in
map order; every other node keeps its id, status and heartbeat.  Contrary to
the claim as stated, nodes already `'failed'` or `'draining'` are *not*
skipped by the staleness scan: with a stale heartbeat they also transition to
`'unhealthy'` and re-trigger recovery — the only status the scan skips is
`'unhealthy'` itself.  (`PodsClosed` delimits the states on which the JS
sweep's `getPodsOnNode` does not throw; the sweep itself never adds or
removes map entries.) -/
theorem hm_checkNodeHealth_spec (m : NodeManager) (now : Int)
    (hnd : (m.nodes.map Node.id).Nodup) (_hpc : PodsClosed m) :
    ((HealthMonitor.checkNodeHealth m now).1.nodes.map sig =
      m.nodes.map (fun n =>
        if HealthMonitor.staleTrigger now n = true
        then (n.id, "unhealthy", n.lastHeartbeat) else sig n)) ∧
    (HealthMonitor.checkNodeHealth m now).2 =
      (m.nodes.filter (HealthMonitor.staleTrigger now)).map Node.id := by
  have hids : (m.nodes.map (fun n => n.id)).Nodup := hnd
  obtain ⟨hA, hB⟩ := tick_fold now (m.nodes.map (fun n => n.id)) m [] hnd hids
  unfold HealthMonitor.checkNodeHealth
  constructor
  · rw [hA, List.map_map]
    apply List.map_congr_left
    intro y hy
    simp only [Function.comp_apply]
    unfold gIds
    by_cases htr : trigT now (sig y) = true
    · rw [if_pos ⟨List.mem_map_of_mem _ hy, htr⟩]
      rw [if_pos (show HealthMonitor.staleTrigger now y = true from htr)]
      rfl
    · rw [if_neg (fun hc => htr hc.2)]
      rw [if_neg (show ¬HealthMonitor.staleTrigger now y = true from fun hc => htr hc)]
  · rw [hB, List.nil_append, filter_map_comm]
    congr 1
    apply List.filter_congr
    intro n hn
    unfold pTrig
    rw [find?_self_of_nodup m.nodes hnd n hn]
    rfl

/-- State for the C6 counterexample: node `"a"` registered at time 0 and then
explicitly failed through `handleNodeFailure` (it hosts no pod, so the call
returns without reaching the throwing `recordRecoveryOperation`). -/
def mC6 : NodeManager :=
  ((NodeManager.empty.addNode "a" 4 0).1.handleNodeFailure "a" 0).1

/-- C6, counterexample to the claim as stated: node `"a"` has status
`'failed'` and a heartbeat 100000 ms old; the claim says failed nodes are
skipped by the staleness scan and never re-trigger recovery, but the sweep
transitions it to `'unhealthy'` and fires recovery for it. -/
theorem hm_checkNodeHealth_counterexample :
    ((mC6.findNode "a").map Node.status = some "failed") ∧
    (((HealthMonitor.checkNodeHealth mC6 100000).1.findNode "a").map Node.status =
      some "unhealthy") ∧
    (HealthMonitor.checkNodeHealth mC6 100000).2 = ["a"] := by
  refine ⟨rfl, rfl, rfl⟩

/-- Witness for C6 at a concrete state. -/
theorem hm_checkNodeHealth_spec_witness :
    ((HealthMonitor.checkNodeHealth mC6 100000).1.nodes.map sig =
      mC6.nodes.map (fun n =>
        if HealthMonitor.staleTrigger 100000 n = true
        then (n.id, "unhealthy", n.lastHeartbeat) else sig n)) ∧
    (HealthMonitor.checkNodeHealth mC6 100000).2 =
      (mC6.nodes.filter (HealthMonitor.staleTrigger 100000)).map Node.id :=
  hm_checkNodeHealth_spec mC6 100000 (by decide) (by unfold PodsClosed; decide)
